import Mathlib

set_option autoImplicit false

/-!
Shallow embedding of the `h` element factory (repository `leo-shopify/h`).

The repository is a single JavaScript module in two close revisions:

* `src/h.js` — the factory the test suite imports (`make(doc)` returning `h`),
  with its helper predicate `isAttributes`, the child normalizer
  `addChildren`, and (in the revision that is also shipped as the bundled
  `docs/index.js`) the recursive property merger `deepCopy` used for the
  special attributes key `"$"`.
* `src/index.js` — a later rewrite of the same module whose `isAttributes`
  and `addChildren` differ; it is embedded separately (`isAttributesIdx`,
  `addChildrenIdx`, `hIdx`) so its behaviour can be compared.

JavaScript values are modelled by the inductive type `Value`; the DOM is a
store (`Dom`) of numbered nodes, and the document capabilities
(`createElement`, `createTextNode`, tag-name validation) follow the
`DocumentLike` / `HTMLElementLike` doubles of `src/test/index.js`, except
that `createTextNode` allocates a real text node (nodeType 3) holding the
string coercion of its argument, as the spec's environment contract asks.
Callables are modelled as indices into a function table so that the
delegation branch of `h` can be stated for every table.
-/

namespace H

/-- JavaScript runtime values, as far as the library observes them.
`vNum` carries the integral numbers the code and tests use, with `vNaN`
kept separate since NaN is falsy and stringifies specially. `vFun` is an
index into a function table (see `FunTable`); `vNode` is a handle into the
DOM store. -/
inductive Value where
  | vNull
  | vUndefined
  | vBool (b : Bool)
  | vNum (n : Int)
  | vNaN
  | vStr (s : String)
  | vArr (items : List Value)
  | vObj (fields : List (String × Value))
  | vMap
  | vWeakMap
  | vFun (idx : Nat)
  | vNode (id : Nat)

/-- JavaScript truthiness: `false`, `0`, `NaN`, the empty string, `null` and
`undefined` are falsy; every object (including the empty array) is truthy. -/
def truthy : Value → Bool
  | .vNull => false
  | .vUndefined => false
  | .vBool b => b
  | .vNum n => !(n == 0)
  | .vNaN => false
  | .vStr s => !(s == "")
  | _ => true

/-- The tail of `Object.prototype.toString.call(it)` after dropping the
first 8 characters `"[object "`, exactly as both revisions compute it.
A node handle reports its DOM class tag (never `"Object]"`); with the
test double it would report `"Object]"` *and* carry a `nodeType` key, so
`isAttributes` rejects it either way. -/
def objTag : Value → String
  | .vNull => "Null]"
  | .vUndefined => "Undefined]"
  | .vBool _ => "Boolean]"
  | .vNum _ => "Number]"
  | .vNaN => "Number]"
  | .vStr _ => "String]"
  | .vArr _ => "Array]"
  | .vObj _ => "Object]"
  | .vMap => "Map]"
  | .vWeakMap => "WeakMap]"
  | .vFun _ => "Function]"
  | .vNode _ => "HTMLElement]"

/-- Field lookup in a plain object's own properties (first match; the
embedding never builds objects with repeated keys). -/
def lookupField : List (String × Value) → String → Option Value
  | [], _ => none
  | (k0, v0) :: rest, k => if k0 = k then some v0 else lookupField rest k

/-- The JavaScript `in` test restricted to the values the code applies it
to: own keys of a plain object; a node handle exposes `nodeType` through
its prototype chain. -/
def inKey : Value → String → Bool
  | .vObj fields, k => (lookupField fields k).isSome
  | .vNode _, _ => true
  | _, _ => false

/-- Property write on a plain object's field list: an existing key keeps
its position and receives the new value, a new key is appended. -/
def setFieldList : List (String × Value) → String → Value → List (String × Value)
  | [], k, v => [(k, v)]
  | (k0, v0) :: rest, k, v =>
    if k0 = k then (k0, v) :: rest else (k0, v0) :: setFieldList rest k v

/-- Property write on a value; writing to a non-object is modelled as a
no-op (strict-mode JavaScript would raise; no verified claim reaches that
path, see `deepCopy`). -/
def setField : Value → String → Value → Value
  | .vObj fields, k, v => .vObj (setFieldList fields k v)
  | dst, _, _ => dst

/-- Field read on a value (own properties of a plain object only). -/
def getField : Value → String → Option Value
  | .vObj fields, k => lookupField fields k
  | _, _ => none

/-- The loose-equality test `x == null`, true exactly for `null` and
`undefined`. -/
def isNullish : Value → Bool
  | .vNull => true
  | .vUndefined => true
  | _ => false

/-- The strict-equality test `x === null`. -/
def isNull : Value → Bool
  | .vNull => true
  | _ => false

/-- The `typeof it === 'function'` test. -/
def isCallable : Value → Bool
  | .vFun _ => true
  | _ => false

/-- The `typeof it === 'object' && it != null` test that guards the
recursion of `deepCopy` (`typeof null` is `'object'` but the null check
excludes it; functions answer `'function'` and are copied as leaves). -/
def isObjectType : Value → Bool
  | .vObj _ => true
  | .vArr _ => true
  | .vMap => true
  | .vWeakMap => true
  | .vNode _ => true
  | _ => false

mutual

/-- JavaScript string coercion of the values the library can coerce: used
for `tag + ''` and for `doc.createTextNode(item)`. Arrays join their
items' coercions with commas, eliding `null` and `undefined`; plain
objects and node handles coerce to `"[object Object]"` (node handles via
the test double, whose elements are plain class instances). -/
def toStr : Value → String
  | .vNull => "null"
  | .vUndefined => "undefined"
  | .vBool true => "true"
  | .vBool false => "false"
  | .vNum n => toString n
  | .vNaN => "NaN"
  | .vStr s => s
  | .vArr items => toStrArr items
  | .vObj _ => "[object Object]"
  | .vMap => "[object Map]"
  | .vWeakMap => "[object WeakMap]"
  | .vFun _ => "function"
  | .vNode _ => "[object Object]"
termination_by structural v => v

/-- Array-to-string: the comma join of `Array.prototype.toString`, with
`null` and `undefined` items contributing the empty string. -/
def toStrArr : List Value → String
  | [] => ""
  | [x] =>
    match x with
    | .vNull => ""
    | .vUndefined => ""
    | y => toStr y
  | x :: xs =>
    (match x with
     | .vNull => ""
     | .vUndefined => ""
     | y => toStr y) ++ "," ++ toStrArr xs
termination_by structural l => l

end

/-- A DOM node as the environment exposes it: element (`nodeType` 1) with a
tag name, attribute map and ordered children; text node (`nodeType` 3)
with its text; fragment (`nodeType` 11). `props` is the element's settable
property bag, reached only through the attributes key `"$"`. -/
structure NodeData where
  nodeType : Nat
  tagName : String
  attributes : List (String × Value)
  props : List (String × Value)
  children : List Value
  text : String

/-- Placeholder node returned for an out-of-range store read. -/
def emptyNode : NodeData := ⟨1, "", [], [], [], ""⟩

/-- The DOM store: node handles (`Value.vNode id`) index this list, and
creation appends. -/
structure Dom where
  nodes : List NodeData

/-- Store read (out-of-range reads yield `emptyNode`; the verified
statements always carry the in-range bound). -/
def getNode (dom : Dom) (id : Nat) : NodeData := dom.nodes.getD id emptyNode

/-- Store write at an existing node's slot. -/
def setNode (dom : Dom) (id : Nat) (nd : NodeData) : Dom := ⟨dom.nodes.set id nd⟩

/-- The error surface of a call: the environment's rejection of a tag name
(`Error('InvalidCharacterError')` in the test double, the spec's
`InvalidTagError`), or a `TypeError` (raised by the `src/index.js`
revision for tags it cannot dispatch). -/
inductive JSErr where
  | invalidTag (name : String)
  | typeError (msg : String)

/-- Tag-name validation of the environment, from the test double's
`VALID_TAG_NAME` regular expression
`/^(:|_|[A-Z]|[a-z])+(:|_|[A-Z]|[a-z]|-|.|[0-9])*$/`: because the dot in
the tail alternation is unescaped it matches any character except a
newline, so a name is valid exactly when it is nonempty, starts with a
letter, `:` or `_`, and has no newline afterwards. -/
def tagStartChar (c : Char) : Bool :=
  (c == ':') || (c == '_') ||
    (decide ('A' ≤ c) && decide (c ≤ 'Z')) || (decide ('a' ≤ c) && decide (c ≤ 'z'))

/-- Whether the environment accepts a tag name (see `tagStartChar`). -/
def validTag (s : String) : Bool :=
  match s.data with
  | [] => false
  | c :: rest => tagStartChar c && rest.all (fun ch => !(ch == '\n'))

/-- Uppercase canonicalization of a tag name (`tag.toUpperCase()` of the
test double), character by character. -/
def upperString (s : String) : String := ⟨s.data.map Char.toUpper⟩

/-- The environment's `createElement`: a fresh element with the uppercase
canonical tag name, or the `InvalidCharacterError` rejection the factory
is expected to propagate. -/
def createElement (dom : Dom) (name : String) : Except JSErr (Nat × Dom) :=
  if validTag name then
    .ok (dom.nodes.length, ⟨dom.nodes ++ [⟨1, upperString name, [], [], [], ""⟩]⟩)
  else
    .error (.invalidTag name)

/-- The environment's `createTextNode`: a fresh text node holding the
string coercion of the argument. -/
def createTextNode (dom : Dom) (v : Value) : Nat × Dom :=
  (dom.nodes.length, ⟨dom.nodes ++ [⟨3, "", [], [], [], toStr v⟩]⟩)

/-- The `appendChild` capability of a node: the child value is added at the
end of the ordered children sequence. -/
def appendChildOp (dom : Dom) (e : Nat) (c : Value) : Dom :=
  setNode dom e { getNode dom e with children := (getNode dom e).children ++ [c] }

/-- The `removeAttribute` capability. -/
def removeAttributeOp (dom : Dom) (e : Nat) (k : String) : Dom :=
  setNode dom e
    { getNode dom e with
      attributes := (getNode dom e).attributes.filter (fun p => !(p.1 == k)) }

/-- The `setAttribute` capability (the double stores the raw value). -/
def setAttributeOp (dom : Dom) (e : Nat) (k : String) (v : Value) : Dom :=
  setNode dom e
    { getNode dom e with attributes := setFieldList (getNode dom e).attributes k v }

/-- The expression `it.nodeType` as a value: a node handle reports its
store entry's category, a plain object its own `nodeType` field if any,
everything else `undefined`. -/
def getNodeTypeVal (dom : Dom) : Value → Value
  | .vNode id =>
    if id < dom.nodes.length then .vNum ((getNode dom id).nodeType : Int)
    else .vUndefined
  | .vObj fields => (lookupField fields "nodeType").getD .vUndefined
  | _ => .vUndefined

/-- The dispatch test `tag.nodeType && tag.nodeType === 1` (the strict
comparison to the number 1 subsumes the truthiness conjunct). -/
def isElemMarked (dom : Dom) (v : Value) : Bool :=
  match getNodeTypeVal dom v with
  | .vNum 1 => true
  | _ => false

/-- The classifier `isAttributes` of `src/h.js` lines 21-27: `null`, a
plain object without a `nodeType` key, a `Map` or a `WeakMap`. -/
def isAttributes (it : Value) : Bool :=
  isNull it ||
    (objTag it == "Object]" && !(inKey it "nodeType")) ||
    objTag it == "Map]" || objTag it == "WeakMap]"

/-- The destination slot `deepCopy` recurses into: `to[prop] || {}` — the
existing value when truthy, a fresh empty object otherwise. -/
def mergeBase (cur : Option Value) : Value :=
  match cur with
  | some c => if truthy c then c else .vObj []
  | none => .vObj []

mutual

/-- The recursive property merger `deepCopy` of `src/h.js` lines 238-249
(the revision shipped as `docs/index.js`): for each own enumerable key of
`src`, recurse when the source value is a non-null object — reusing the
destination slot when it is truthy, otherwise installing a fresh `{}` —
and overwrite with the leaf value otherwise. A non-object destination is
returned unchanged by `setField` (strict-mode JavaScript would raise
there; no verified claim reaches that path). -/
def deepCopy : Value → Value → Value
  | dst, .vObj fields => deepCopyFields dst fields
  | dst, .vArr items => deepCopyArr dst 0 items
  | dst, _ => dst
termination_by structural _ v => v

/-- Key-by-key step of `deepCopy` over a plain object's fields, in
enumeration order. -/
def deepCopyFields : Value → List (String × Value) → Value
  | dst, [] => dst
  | dst, (k, v) :: rest =>
    deepCopyFields
      (if isObjectType v then
        setField dst k (deepCopy (mergeBase (getField dst k)) v)
      else setField dst k v)
      rest
termination_by structural _ l => l

/-- Index-by-index step of `deepCopy` over an array source: `for…in` over
an array enumerates its index keys `"0"`, `"1"`, … . -/
def deepCopyArr : Value → Nat → List Value → Value
  | dst, _, [] => dst
  | dst, i, v :: rest =>
    deepCopyArr
      (if isObjectType v then
        setField dst (toString i) (deepCopy (mergeBase (getField dst (toString i))) v)
      else setField dst (toString i) v)
      (i + 1) rest
termination_by structural _ _ l => l

end

/-- Enumeration of the own keys the attribute loops iterate
(`Object.keys` / `for…in`): the keys of a plain object in insertion
order; `null`, maps and primitives enumerate nothing. -/
def ownKeys : Value → List String
  | .vObj fields => fields.map Prod.fst
  | _ => []

/-- Property read with JavaScript's `undefined` default. -/
def getProp (v : Value) (k : String) : Value := (getField v k).getD .vUndefined

/-- The fields of a plain object (used to read back the element's property
bag after `deepCopy`, which maps objects to objects). -/
def objFields : Value → List (String × Value)
  | .vObj fields => fields
  | _ => []

/-- One attribute entry of the factory's attribute loop: the sentinel key
`"$"` deep-merges into the element's property bag and touches no
attribute; a `null`/`undefined` value removes the attribute; anything
else sets it. -/
def applyAttr (dom : Dom) (e : Nat) (k : String) (v : Value) : Dom :=
  if k = "$" then
    setNode dom e
      { getNode dom e with
        props := objFields (deepCopy (.vObj (getNode dom e).props) v) }
  else if isNullish v then removeAttributeOp dom e k
  else setAttributeOp dom e k v

/-- The factory's attribute loop over the classified attributes value. -/
def applyAttributes (dom : Dom) (e : Nat) (attrs : Value) : Dom :=
  (ownKeys attrs).foldl (fun d k => applyAttr d e k (getProp attrs k)) dom

/-- Attachment of one already-classified non-skippable, non-sequence child:
a value with a truthy `nodeType` is appended as-is, anything else is
first turned into a fresh text node. -/
def attachLeaf (dom : Dom) (e : Nat) (it : Value) : Dom :=
  if truthy (getNodeTypeVal dom it) then appendChildOp dom e it
  else appendChildOp (createTextNode dom it).2 e (.vNode (createTextNode dom it).1)

mutual

/-- The child normalizer `addChildren` of `src/h.js` lines 86-91: skip
`null` and `undefined`, recurse over arrays (the reduce keeps folding
into the same element), and otherwise append the item — as-is when it
carries a truthy `nodeType`, else as a fresh text node. -/
def addChildren (dom : Dom) (e : Nat) : Value → Dom
  | .vNull => dom
  | .vUndefined => dom
  | .vArr items => addChildrenList dom e items
  | it => attachLeaf dom e it
termination_by structural v => v

/-- The fold `items.reduce(addChildren, element)`. -/
def addChildrenList (dom : Dom) (e : Nat) : List Value → Dom
  | [] => dom
  | it :: rest => addChildrenList (addChildren dom e it) e rest
termination_by structural l => l

end

/-- Interpretation of callables: `Value.vFun n` applied to an argument
list in a DOM state. -/
def FunTable : Type :=
  Nat → List Value → Dom → Except JSErr (Value × Dom)

/-- The coercion `arguments[0] || DEFAULT_TAG` that precedes dispatch. -/
def effectiveTag (v : Value) : Value := if truthy v then v else .vStr "div"

/-- The tag-name coercion `tag + '' || DEFAULT_TAG` of the creation
branch. -/
def coercedName (t : Value) : String := if toStr t = "" then "div" else toStr t

/-- Element selection of `src/h.js` lines 131-138: a tag whose `nodeType`
is strictly the number 1 is mutated in place, anything else is
string-coerced and requested from the environment. An element-marked
value that is not a real node handle is modelled as a `TypeError` (in
JavaScript it would be returned untouched until the first capability
call raises; no verified claim reaches that corner). -/
def selectElement (dom : Dom) (t : Value) : Except JSErr (Nat × Dom) :=
  if isElemMarked dom t then
    match t with
    | .vNode id => .ok (id, dom)
    | _ => .error (.typeError "element-marked value is not a node handle")
  else createElement dom (coercedName t)

/-- Attribute classification and child attachment of `src/h.js` after the
element has been selected: when `rest[0]` qualifies per `isAttributes` it
is applied and its slot replaced by `null` (skipped later by the child
normalizer), then the whole sequence is folded in with `addChildren`. -/
def hRest (sel : Except JSErr (Nat × Dom)) (rest : List Value) :
    Except JSErr (Value × Dom) :=
  match sel with
  | .error er => .error er
  | .ok (e, dom1) =>
    if isAttributes (rest.headD .vUndefined) then
      .ok (.vNode e,
        addChildrenList
          (applyAttributes dom1 e (rest.headD .vUndefined)) e (rest.set 0 .vNull))
    else
      .ok (.vNode e, addChildrenList dom1 e rest)

/-- The factory `h` of `src/h.js` (closure-free form: the document
environment is the `Dom` store and callables live in the table `tbl`):
delegate to a callable tag at once; otherwise select or create the
element, then classify and attach the remaining arguments (`hRest`). -/
def h (tbl : FunTable) (args : List Value) (dom : Dom) : Except JSErr (Value × Dom) :=
  match effectiveTag (args.headD .vUndefined) with
  | .vFun n => tbl n args.tail dom
  | t => hRest (selectElement dom t) args.tail

/-- A function table with no callables (delegating to it raises, as
applying a non-function would). -/
def noFuns : FunTable := fun _ _ _ => .error (.typeError "is not a function")

/-- A function table whose every entry is the factory itself over
`noFuns`: enough to state the self-delegation example
`h(h, "a", {id: "x"}, "hello")`. -/
def selfFuns : FunTable := fun _ rest dom => h noFuns rest dom

/-- The classifier `isAttributes` of the `src/index.js` revision (lines
28-38): there a plain object with a `nodeType` key still qualifies as
attributes unless that key holds a number, and a numeric `nodeType`
disqualifies only when it does not exceed `DOCUMENT_FRAGMENT_NODE` (11);
a non-numeric `nodeType` is ignored. -/
def isAttributesIdx (it : Value) : Bool :=
  if isNull it then true
  else if !(truthy it) then false
  else if objTag it == "Object]" then
    match getField it "nodeType" with
    | some (.vNum n) => decide (n > 11)
    | some .vNaN => false
    | some _ => true
    | none => true
  else objTag it == "Map]" || objTag it == "WeakMap]"

/-- Reference comparison used by `insertBefore` to locate the reference
child; node handles compare by store id. Non-handle children never occur
as the reference in the evaluated runs (the reference is a previously
captured `firstChild`). -/
def refEq : Value → Value → Bool
  | .vNode i, .vNode j => i == j
  | _, _ => false

/-- Insertion before the first occurrence of the reference child; a `none`
reference appends (the DOM's `insertBefore(node, null)`). -/
def insertBeforeList : List Value → Value → Value → List Value
  | [], c, _ => [c]
  | x :: xs, c, r => if refEq x r then c :: x :: xs else x :: insertBeforeList xs c r

/-- The `insertBefore` capability of a node. -/
def insertBeforeOp (dom : Dom) (e : Nat) (c : Value) (ref : Option Value) : Dom :=
  match ref with
  | none => appendChildOp dom e c
  | some r =>
    setNode dom e
      { getNode dom e with children := insertBeforeList (getNode dom e).children c r }

/-- The first child of a node, as captured by the loop header of the
`src/index.js` `addChildren` (`child1 = element.firstChild`). -/
def firstChild (dom : Dom) (e : Nat) : Option Value := (getNode dom e).children.head?

/-- The insertion line `element.insertBefore(item.nodeType ? item :
doc.createTextNode(item), child1)` shared by every non-skipped item of
the `src/index.js` child loop. -/
def insertLeafIdx (dom : Dom) (e : Nat) (child1 : Option Value) (it : Value) : Dom :=
  if truthy (getNodeTypeVal dom it) then insertBeforeOp dom e it child1
  else
    insertBeforeOp (createTextNode dom it).2 e (.vNode (createTextNode dom it).1) child1

mutual

/-- Processing of the `src/index.js` child-loop indices `len-1 … 0`
relative to the captured reference `child1`: the head of the list is
handled after the whole tail (last index first). -/
def goIdx (dom : Dom) (e : Nat) (child1 : Option Value) : List Value → Dom
  | [] => dom
  | item :: rest => stepIdxAux (goIdx dom e child1 rest) e child1 item
termination_by structural l => l

/-- One iteration of the `src/index.js` child loop on `item` (with `dom`
the store as of that iteration): skip `null`/`undefined`; on an array
recurse — capturing that recursion's own `firstChild` — and then, the
branch having no `continue`, fall through and insert the array itself
via the shared insertion line. -/
def stepIdxAux (dom : Dom) (e : Nat) (child1 : Option Value) : Value → Dom
  | .vNull => dom
  | .vUndefined => dom
  | .vArr items =>
    insertLeafIdx (goIdx dom e (firstChild dom e) items) e child1 (.vArr items)
  | it => insertLeafIdx dom e child1 it
termination_by structural v => v

end

/-- The child normalizer `addChildren` of `src/index.js` lines 50-57: it
captures `element.firstChild` once, then walks the children array from
the last index down to 0 (`for (let i = children.length, …; i--;)`),
with each item handled by `stepIdxAux`. -/
def addChildrenIdx (dom : Dom) (e : Nat) (cs : List Value) : Dom :=
  goIdx dom e (firstChild dom e) cs

/-- One attribute entry of the `src/index.js` loop: its `"$"` branch is a
shallow property copy, iterated over the property keys from the last to
the first. -/
def applyAttrIdx (dom : Dom) (e : Nat) (k : String) (v : Value) : Dom :=
  if k = "$" then
    setNode dom e
      { getNode dom e with
        props :=
          ((ownKeys v).reverse).foldl
            (fun ps pk => setFieldList ps pk (getProp v pk)) (getNode dom e).props }
  else if isNullish v then removeAttributeOp dom e k
  else setAttributeOp dom e k v

/-- The `src/index.js` attribute loop, which walks `Object.keys` from the
last key to the first (`for (let i = attrKeys.length, …; i--;)`). -/
def applyAttributesIdx (dom : Dom) (e : Nat) (attrs : Value) : Dom :=
  ((ownKeys attrs).reverse).foldl (fun d k => applyAttrIdx d e k (getProp attrs k)) dom

/-- Attribute and child processing shared by the dispatch branches of
`hIdx`. -/
def hIdxRest (sel : Except JSErr (Nat × Dom)) (rest : List Value) :
    Except JSErr (Value × Dom) :=
  match sel with
  | .error er => .error er
  | .ok (e, dom1) =>
    if isAttributesIdx (rest.headD .vUndefined) then
      .ok (.vNode e,
        addChildrenIdx
          (applyAttributesIdx dom1 e (rest.headD .vUndefined)) e (rest.set 0 .vNull))
    else .ok (.vNode e, addChildrenIdx dom1 e rest)

/-- The factory `h` of the `src/index.js` revision: same delegation and
falsy-tag defaulting, but a string tag goes straight to `createElement`
(no empty-string refallback is needed after the `tag || 'div'`
coercion), an element-marked tag is mutated, and every other tag raises
`TypeError('tag must be a string, an HTMLElement or a function')`. -/
def hIdx (tbl : FunTable) (args : List Value) (dom : Dom) : Except JSErr (Value × Dom) :=
  match effectiveTag (args.headD .vUndefined) with
  | .vFun n => tbl n args.tail dom
  | .vStr s =>
    hIdxRest (createElement dom s) args.tail
  | t =>
    if isElemMarked dom t then
      match t with
      | .vNode id => hIdxRest (.ok (id, dom)) args.tail
      | _ => .error (.typeError "element-marked value is not a node handle")
    else .error (.typeError "tag must be a string, an HTMLElement or a function")

mutual

/-- Well-formed child input for the invariant claim: node handles are
in-range and no other value fakes a truthy `nodeType` (a caller-crafted
`{nodeType: 5}` would be appended raw by the code, outside the spec's
data model of children). -/
def wfChild (dom : Dom) : Value → Bool
  | .vNull => true
  | .vUndefined => true
  | .vArr items => wfChildList dom items
  | .vNode id => decide (id < dom.nodes.length)
  | v => !(truthy (getNodeTypeVal dom v))
termination_by structural v => v

/-- Well-formedness of every item of a child sequence. -/
def wfChildList (dom : Dom) : List Value → Bool
  | [] => true
  | x :: xs => wfChild dom x && wfChildList dom xs
termination_by structural l => l

end

/-- Membership of a key in a key list. -/
def keyMem : List String → String → Bool
  | [], _ => false
  | k0 :: rest, k => (k0 == k) || keyMem rest k

/-- Key lists without repetitions (JavaScript objects cannot repeat own
keys). -/
def keysNodup : List String → Bool
  | [] => true
  | k :: ks => !(keyMem ks k) && keysNodup ks

mutual

/-- Property trees as the `"$"` attribute carries them: plain objects with
distinct keys whose non-leaf values are again such objects (arrays, maps
and node handles excluded), every other value a leaf. -/
def wfPure : Value → Bool
  | .vObj fields => keysNodup (fields.map Prod.fst) && wfPureFields fields
  | .vArr _ => false
  | .vMap => false
  | .vWeakMap => false
  | .vNode _ => false
  | _ => true
termination_by structural v => v

/-- Purity of every field value (see `wfPure`). -/
def wfPureFields : List (String × Value) → Bool
  | [] => true
  | (_, v) :: rest => wfPure v && wfPureFields rest
termination_by structural l => l

end

/-- Number of element nodes (nodeType 1) in the store: the quantity
element-tag mutation must not increase. -/
def countElems (dom : Dom) : Nat := dom.nodes.countP (fun nd => nd.nodeType == 1)

/-- A child value that is a valid node handle of the store. -/
def isNodeRef (dom : Dom) (v : Value) : Prop :=
  ∃ id, v = Value.vNode id ∧ id < dom.nodes.length

/-- The empty document. -/
def emptyDom : Dom := ⟨[]⟩

/-- A fresh list-item element, as `createElement('li')` yields it. -/
def liNode : NodeData := ⟨1, "LI", [], [], [], ""⟩

/-- A store holding three fresh `li` elements (handles 0, 1 and 2). -/
def liDom : Dom := ⟨[liNode, liNode, liNode]⟩

/-- A store holding one fresh `section` element (handle 0). -/
def sectionDom : Dom := ⟨[⟨1, "SECTION", [], [], [], ""⟩]⟩

/-- A store holding one document fragment (handle 0, nodeType 11). -/
def fragDom : Dom := ⟨[⟨11, "", [], [], [], ""⟩]⟩

/-! ### List and store helper lemmas -/

theorem getD_append_self {α : Type} :
    ∀ (l : List α) (x d : α), (l ++ [x]).getD l.length d = x
  | [], _, _ => rfl
  | _ :: as, x, d => getD_append_self as x d

theorem set_append_self {α : Type} :
    ∀ (l : List α) (x nd : α), (l ++ [x]).set l.length nd = l ++ [nd]
  | [], _, _ => rfl
  | a :: as, x, nd => congrArg (List.cons a) (set_append_self as x nd)

theorem getD_append_lt {α : Type} :
    ∀ (l l2 : List α) (i : Nat) (d : α), i < l.length → (l ++ l2).getD i d = l.getD i d
  | [], _, _, _, hi => absurd hi (by simp)
  | _ :: _, _, 0, _, _ => rfl
  | _ :: as, l2, i + 1, d, hi => getD_append_lt as l2 i d (by simpa using hi)

theorem getD_set_self {α : Type} :
    ∀ (l : List α) (i : Nat) (nd d : α), i < l.length → (l.set i nd).getD i d = nd
  | [], _, _, _, hi => absurd hi (by simp)
  | _ :: _, 0, _, _, _ => rfl
  | _ :: as, i + 1, nd, d, hi => getD_set_self as i nd d (by simpa using hi)

theorem countP_set_of_eq {α : Type} (p : α → Bool) (d : α) :
    ∀ (l : List α) (i : Nat) (nd : α),
      p nd = p (l.getD i d) → (l.set i nd).countP p = l.countP p
  | [], _, _, _ => rfl
  | a :: as, 0, nd, hp => by
    rw [List.set_cons_zero, List.countP_cons, List.countP_cons]
    simp only [List.getD_cons_zero] at hp
    rw [hp]
  | a :: as, i + 1, nd, hp => by
    rw [List.set_cons_succ, List.countP_cons, List.countP_cons,
      countP_set_of_eq p d as i nd (by simpa using hp)]

theorem getNode_setNode_self (dom : Dom) (e : Nat) (nd : NodeData)
    (he : e < dom.nodes.length) : getNode (setNode dom e nd) e = nd :=
  getD_set_self dom.nodes e nd emptyNode he

theorem setNode_length (dom : Dom) (e : Nat) (nd : NodeData) :
    (setNode dom e nd).nodes.length = dom.nodes.length := by
  simp [setNode]

theorem countElems_setNode (dom : Dom) (e : Nat) (nd : NodeData)
    (hnt : nd.nodeType = (getNode dom e).nodeType) :
    countElems (setNode dom e nd) = countElems dom :=
  countP_set_of_eq _ emptyNode dom.nodes e nd (by simp [getNode] at hnt ⊢; rw [hnt])

theorem lookupField_append_none :
    ∀ (a : List (String × Value)) (k k' : String) (v : Value),
      (lookupField a k').isSome = false → ¬(k = k') →
      (lookupField (a ++ [(k, v)]) k').isSome = false
  | [], k, k', v, _, hne => by simp [lookupField, hne]
  | (k0, v0) :: rest, k, k', v, hs, hne => by
    by_cases hk : k0 = k'
    · simp [lookupField, hk] at hs
    · simp only [List.cons_append, lookupField, if_neg hk] at hs ⊢
      exact lookupField_append_none rest k k' v hs hne

theorem setFieldList_append :
    ∀ (a : List (String × Value)) (k : String) (v : Value),
      (lookupField a k).isSome = false → setFieldList a k v = a ++ [(k, v)]
  | [], _, _, _ => rfl
  | (k0, v0) :: rest, k, v, hs => by
    by_cases hk : k0 = k
    · simp [lookupField, hk] at hs
    · simp only [setFieldList, if_neg hk, List.cons_append, List.cons.injEq, true_and]
      exact setFieldList_append rest k v (by simpa [lookupField, hk] using hs)

/-! ### Claim theorems -/

/-- C1. The classifier `isAttributes` accepts exactly `null`, a plain
mapping without the node-category marker key, a hash map and a
weak-reference map, and rejects every other value; in particular
`isAttributes(null)`, `isAttributes(undefined)`, `isAttributes({})` and
`isAttributes({nodeType: 1})` come out true, false, true, false. -/
theorem isAttributes_classifies :
    (∀ v : Value,
      isAttributes v = true ↔
        v = Value.vNull
        ∨ (∃ fields, v = Value.vObj fields ∧ (lookupField fields "nodeType").isSome = false)
        ∨ v = Value.vMap ∨ v = Value.vWeakMap)
    ∧ isAttributes .vNull = true
    ∧ isAttributes .vUndefined = false
    ∧ isAttributes (.vObj []) = true
    ∧ isAttributes (.vObj [("nodeType", .vNum 1)]) = false := by
  refine ⟨fun v => ?_, by decide, by decide, by decide, by decide⟩
  cases v <;> simp [isAttributes, objTag, isNull, inKey]

/-- C5. A callable tag is invoked with exactly the remaining arguments and
its result is returned at once, for every function table; in particular
the self-delegation `h(h, "a", {id: "x"}, "hello")` agrees with
`h("a", {id: "x"}, "hello")`, which builds an `A` element with the `id`
attribute and one text child. -/
theorem h_function_tag_delegates :
    (∀ (tbl : FunTable) (n : Nat) (rest : List Value) (dom : Dom),
      h tbl (.vFun n :: rest) dom = tbl n rest dom)
    ∧ h selfFuns [.vFun 0, .vStr "a", .vObj [("id", .vStr "x")], .vStr "hello"] emptyDom
        = h noFuns [.vStr "a", .vObj [("id", .vStr "x")], .vStr "hello"] emptyDom
    ∧ h noFuns [.vStr "a", .vObj [("id", .vStr "x")], .vStr "hello"] emptyDom
        = .ok (.vNode 0,
            ⟨[⟨1, "A", [("id", .vStr "x")], [], [.vNode 1], ""⟩,
              ⟨3, "", [], [], [], "hello"⟩]⟩) :=
  ⟨fun _ _ _ _ => rfl, rfl, by rfl⟩

/-- C9. Classification of a plain mapping depends only on the presence of
the `nodeType` key, not on its value: any plain object carrying the key,
even bound to `undefined`, is rejected by `isAttributes`, and the factory
then treats it as the first child (here: stringified into a text node of
a fresh `div`, with no attribute applied). -/
theorem marker_key_forces_child :
    (∀ (fields : List (String × Value)) (v0 : Value),
      lookupField fields "nodeType" = some v0 → isAttributes (.vObj fields) = false)
    ∧ h noFuns [.vStr "div", .vObj [("nodeType", .vUndefined)]] emptyDom
        = .ok (.vNode 0,
            ⟨[⟨1, "DIV", [], [], [.vNode 1], ""⟩,
              ⟨3, "", [], [], [], "[object Object]"⟩]⟩) := by
  refine ⟨fun fields v0 hlk => ?_, by rfl⟩
  simp [isAttributes, objTag, isNull, inKey, hlk]

/-- Witness for C9 at the concrete mapping `{nodeType: undefined}`. -/
theorem marker_key_forces_child_witness :
    isAttributes (.vObj [("nodeType", .vUndefined)]) = false :=
  marker_key_forces_child.1 [("nodeType", .vUndefined)] .vUndefined rfl

/-- Dispatch lemma: when the coerced tag is not callable, the factory is
element selection followed by attribute and child processing. -/
theorem h_eq_hRest (tbl : FunTable) (args : List Value) (dom : Dom)
    (hnc : isCallable (effectiveTag (args.headD .vUndefined)) = false) :
    h tbl args dom
      = hRest (selectElement dom (effectiveTag (args.headD .vUndefined))) args.tail := by
  cases hv : effectiveTag (args.headD .vUndefined)
  case vFun n => rw [hv] at hnc; simp [isCallable] at hnc
  all_goals simp only [h, hv]

/-- Element selection reduces to environment creation when the tag is not
element-marked. -/
theorem selectElement_not_marked (dom : Dom) (t : Value)
    (hnm : isElemMarked dom t = false) :
    selectElement dom t = createElement dom (coercedName t) := by
  simp [selectElement, hnm]

/-- C4. Every falsy tag (`undefined`, `""`, `null`, `NaN`, `false`, `0`)
and every tag whose string coercion is empty (the empty sequence among
them) makes `h` create a fresh element with the default tag in uppercase
canonical form, `"DIV"`. -/
theorem h_falsy_tag_defaults_div (tbl : FunTable) (tag : Value) (dom : Dom)
    (hft : truthy tag = false ∨ toStr tag = "") :
    h tbl [tag] dom
      = .ok (.vNode dom.nodes.length, ⟨dom.nodes ++ [⟨1, "DIV", [], [], [], ""⟩]⟩) := by
  by_cases hf : truthy tag = false
  · have he : effectiveTag tag = .vStr "div" := by simp [effectiveTag, hf]
    rw [h_eq_hRest tbl [tag] dom (by simp [he, isCallable])]
    simp only [List.headD_cons, List.tail_cons, he]
    rfl
  · have htr : truthy tag = true := by revert hf; cases truthy tag <;> simp
    have hs : toStr tag = "" := by
      rcases hft with h1 | h2
      · exact absurd h1 hf
      · exact h2
    have he : effectiveTag tag = tag := by simp [effectiveTag, htr]
    cases tag with
    | vNull => simp [truthy] at htr
    | vUndefined => simp [truthy] at htr
    | vNaN => simp [truthy] at htr
    | vBool b =>
      cases b
      · simp [truthy] at htr
      · simp [toStr] at hs
    | vStr s =>
      simp [truthy] at htr
      simp [toStr] at hs
      exact absurd hs htr
    | vFun n => simp [toStr] at hs
    | vNode id => simp [toStr] at hs
    | vObj fields => simp [toStr] at hs
    | vMap => simp [toStr] at hs
    | vWeakMap => simp [toStr] at hs
    | vNum n =>
      rw [h_eq_hRest tbl [.vNum n] dom (by simp [List.headD_cons, he, isCallable])]
      simp only [List.headD_cons, List.tail_cons, he]
      rw [selectElement_not_marked dom (.vNum n) rfl]
      rw [show coercedName (.vNum n) = "div" from by simp [coercedName, hs]]
      rfl
    | vArr items =>
      rw [h_eq_hRest tbl [.vArr items] dom (by simp [List.headD_cons, he, isCallable])]
      simp only [List.headD_cons, List.tail_cons, he]
      rw [selectElement_not_marked dom (.vArr items) rfl]
      rw [show coercedName (.vArr items) = "div" from by simp [coercedName, hs]]
      rfl

/-- Witness for C4 at the empty sequence: `h([])` yields a `DIV` element
(an empty array is truthy, but its string coercion is empty). -/
theorem h_falsy_tag_defaults_div_witness :
    h noFuns [.vArr []] emptyDom = .ok (.vNode 0, ⟨[⟨1, "DIV", [], [], [], ""⟩]⟩) :=
  h_falsy_tag_defaults_div noFuns (.vArr []) emptyDom (Or.inr rfl)

/-- C7. A tag that, after string coercion (with the empty-string fallback),
names an invalid tag makes `h` return exactly the rejection produced by
the environment's element creation, caught nowhere in the factory. -/
theorem h_invalid_tag_propagates (tbl : FunTable) (tag : Value) (rest : List Value)
    (dom : Dom)
    (hnc : isCallable (effectiveTag tag) = false)
    (hnm : isElemMarked dom (effectiveTag tag) = false)
    (hinv : validTag (coercedName (effectiveTag tag)) = false) :
    h tbl (tag :: rest) dom = .error (.invalidTag (coercedName (effectiveTag tag)))
    ∧ createElement dom (coercedName (effectiveTag tag))
        = .error (.invalidTag (coercedName (effectiveTag tag))) := by
  have hce : createElement dom (coercedName (effectiveTag tag))
      = .error (.invalidTag (coercedName (effectiveTag tag))) := by
    simp [createElement, hinv]
  refine ⟨?_, hce⟩
  rw [h_eq_hRest tbl (tag :: rest) dom (by simpa using hnc)]
  simp only [List.headD_cons, List.tail_cons]
  rw [selectElement_not_marked dom (effectiveTag tag) hnm, hce]
  rfl

/-- Witness for C7 at the numeric tag `123`: string-coerced to `"123"`,
rejected by the environment, and the same error surfaces from `h`. -/
theorem h_invalid_tag_propagates_witness :
    h noFuns [.vNum 123] emptyDom = .error (.invalidTag "123")
    ∧ createElement emptyDom "123" = .error (.invalidTag "123") :=
  h_invalid_tag_propagates noFuns (.vNum 123) [] emptyDom (by decide) (by decide)
    (by decide)

/-- C10. A node-marked tag whose category is not the element class (a
fragment, `nodeType` 11) is never mutated or returned: it is
string-coerced (to `"[object Object]"`) and used as a tag name for a
fresh element request, which the environment rejects. -/
theorem h_fragment_tag_rejected (tbl : FunTable) (id : Nat) (rest : List Value)
    (dom : Dom) (hid : id < dom.nodes.length)
    (hfrag : (getNode dom id).nodeType = 11) :
    h tbl (.vNode id :: rest) dom = .error (.invalidTag "[object Object]")
    ∧ createElement dom "[object Object]" = .error (.invalidTag "[object Object]") := by
  have hnt : getNodeTypeVal dom (.vNode id) = .vNum 11 := by
    simp [getNodeTypeVal, hid, hfrag]
  have hnm : isElemMarked dom (.vNode id) = false := by
    rw [isElemMarked, hnt]
    decide
  have hce : createElement dom "[object Object]"
      = .error (.invalidTag "[object Object]") := by
    have hval : validTag "[object Object]" = false := by decide
    simp [createElement, hval]
  refine ⟨?_, hce⟩
  rw [h_eq_hRest tbl (.vNode id :: rest) dom (by simp [List.headD_cons]; rfl)]
  simp only [List.headD_cons, List.tail_cons]
  rw [show effectiveTag (.vNode id) = .vNode id from rfl,
    selectElement_not_marked dom (.vNode id) hnm,
    show coercedName (.vNode id) = "[object Object]" from rfl, hce]
  rfl

/-- Witness for C10 at a concrete store holding one fragment. -/
theorem h_fragment_tag_rejected_witness :
    h noFuns [.vNode 0] fragDom = .error (.invalidTag "[object Object]")
    ∧ createElement fragDom "[object Object]"
        = .error (.invalidTag "[object Object]") :=
  h_fragment_tag_rejected noFuns 0 [] fragDom (by decide) (by decide)

/-- A key absent from a key list differs from every member. -/
theorem keyMem_false_ne (ks : List String) (k : String) (hnc : keyMem ks k = false) :
    ∀ k', k' ∈ ks → ¬(k = k') := by
  induction ks with
  | nil => intro k' hk'; cases hk'
  | cons a as ih =>
    intro k' hk' heq
    rw [keyMem, Bool.or_eq_false_iff] at hnc
    rcases List.mem_cons.mp hk' with rfl | hmem
    · subst heq; simp at hnc
    · exact ih hnc.2 k' hmem heq

/-- Writing a fresh key appends the field. -/
theorem setField_fresh (acc : List (String × Value)) (k : String) (v : Value)
    (hk0 : (lookupField acc k).isSome = false) :
    setField (.vObj acc) k v = .vObj (acc ++ [(k, v)]) := by
  rw [setField, setFieldList_append acc k v hk0]

/-- Copying a pure property tree into a fresh accumulator appends its
fields unchanged (the keys being disjoint from the accumulator's). -/
theorem deepCopyFields_fresh :
    ∀ (fields acc : List (String × Value)),
      keysNodup (fields.map Prod.fst) = true →
      wfPureFields fields = true →
      (∀ k', k' ∈ fields.map Prod.fst → (lookupField acc k').isSome = false) →
      deepCopyFields (.vObj acc) fields = .vObj (acc ++ fields)
  | [], acc, _, _, _ => by simp [deepCopyFields]
  | (k, v) :: rest, acc, hnd, hwf, hdisj => by
    rw [List.map_cons, keysNodup, Bool.and_eq_true] at hnd
    rw [wfPureFields, Bool.and_eq_true] at hwf
    have hk0 : (lookupField acc k).isSome = false := hdisj k (by simp)
    have hnone : lookupField acc k = none := by
      cases hL : lookupField acc k with
      | none => rfl
      | some w => rw [hL] at hk0; simp at hk0
    have hdisj' : ∀ (w : Value), ∀ k', k' ∈ rest.map Prod.fst →
        (lookupField (acc ++ [(k, w)]) k').isSome = false := by
      intro w k' hk'
      exact lookupField_append_none acc k k' w (hdisj k' (by simp [hk']))
        (keyMem_false_ne _ k (by simpa using hnd.1) k' hk')
    by_cases hobj : isObjectType v = true
    · cases v with
      | vNull => simp [isObjectType] at hobj
      | vUndefined => simp [isObjectType] at hobj
      | vBool b => simp [isObjectType] at hobj
      | vNum n => simp [isObjectType] at hobj
      | vNaN => simp [isObjectType] at hobj
      | vStr s => simp [isObjectType] at hobj
      | vFun i => simp [isObjectType] at hobj
      | vArr items => simp [wfPure] at hwf
      | vMap => simp [wfPure] at hwf
      | vWeakMap => simp [wfPure] at hwf
      | vNode i => simp [wfPure] at hwf
      | vObj gs =>
        have hwfg : keysNodup (gs.map Prod.fst) = true ∧ wfPureFields gs = true := by
          have hg := hwf.1
          rw [wfPure, Bool.and_eq_true] at hg
          exact hg
        have hinner : deepCopy (.vObj []) (.vObj gs) = .vObj gs := by
          rw [deepCopy,
            deepCopyFields_fresh gs [] hwfg.1 hwfg.2 (by intro k' _; simp [lookupField])]
          simp
        have hstep : deepCopyFields (.vObj acc) ((k, .vObj gs) :: rest)
            = deepCopyFields (.vObj (acc ++ [(k, .vObj gs)])) rest := by
          rw [deepCopyFields, if_pos (show isObjectType (.vObj gs) = true from rfl),
            show getField (.vObj acc) k = (none : Option Value) from hnone,
            show mergeBase none = (.vObj [] : Value) from rfl, hinner,
            setField_fresh acc k _ hk0]
        rw [hstep, deepCopyFields_fresh rest _ hnd.2 hwf.2 (hdisj' _)]
        simp
    · have hobj' : isObjectType v = false := by
        revert hobj; cases isObjectType v <;> simp
      have hstep : deepCopyFields (.vObj acc) ((k, v) :: rest)
          = deepCopyFields (.vObj (acc ++ [(k, v)])) rest := by
        rw [deepCopyFields, if_neg (by simp [hobj']), setField_fresh acc k v hk0]
      rw [hstep, deepCopyFields_fresh rest _ hnd.2 hwf.2 (hdisj' _)]
      simp

/-- A pure property tree copied into a fresh destination comes back
unchanged: every leaf, at every depth, lands in the copy. -/
theorem deepCopy_fresh (fields : List (String × Value))
    (hwf : wfPure (.vObj fields) = true) :
    deepCopy (.vObj []) (.vObj fields) = .vObj fields := by
  rw [wfPure, Bool.and_eq_true] at hwf
  rw [deepCopy,
    deepCopyFields_fresh fields [] hwf.1 hwf.2 (by intro k' _; simp [lookupField])]
  simp

/-- C3. The sentinel attributes key `"$"` deep-merge-copies every leaf of
its value into the element's property bag (for a fresh element the whole
property tree is reproduced, intermediate containers created along the
way), and no attribute is ever set for that key; e.g.
`h("div", {$: {style: {color: "grey"}}})` sets the element's `style`
property's `color` field with no `style` attribute. -/
theorem h_dollar_deep_property_copy :
    (∀ (tbl : FunTable) (fields : List (String × Value)) (dom : Dom),
      wfPure (.vObj fields) = true →
      h tbl [.vStr "div", .vObj [("$", .vObj fields)]] dom
        = .ok (.vNode dom.nodes.length,
            ⟨dom.nodes ++ [⟨1, "DIV", [], fields, [], ""⟩]⟩))
    ∧ h noFuns
        [.vStr "div", .vObj [("$", .vObj [("style", .vObj [("color", .vStr "grey")])])]]
        emptyDom
        = .ok (.vNode 0,
            ⟨[⟨1, "DIV", [], [("style", .vObj [("color", .vStr "grey")])], [], ""⟩]⟩) := by
  have main : ∀ (tbl : FunTable) (fields : List (String × Value)) (dom : Dom),
      wfPure (.vObj fields) = true →
      h tbl [.vStr "div", .vObj [("$", .vObj fields)]] dom
        = .ok (.vNode dom.nodes.length,
            ⟨dom.nodes ++ [⟨1, "DIV", [], fields, [], ""⟩]⟩) := by
    intro tbl fields dom hwf
    rw [h_eq_hRest tbl _ dom (by rfl)]
    simp only [List.headD_cons, List.tail_cons]
    rw [show effectiveTag (.vStr "div") = .vStr "div" from rfl,
      selectElement_not_marked dom (.vStr "div") rfl,
      show coercedName (.vStr "div") = "div" from rfl,
      show createElement dom "div"
        = .ok (dom.nodes.length, ⟨dom.nodes ++ [⟨1, "DIV", [], [], [], ""⟩]⟩) from rfl]
    have hattr : isAttributes (.vObj [("$", .vObj fields)]) = true := rfl
    rw [hRest, if_pos (by rw [List.headD_cons, hattr])]
    have hget : getNode (⟨dom.nodes ++ [⟨1, "DIV", [], [], [], ""⟩]⟩ : Dom)
        dom.nodes.length = ⟨1, "DIV", [], [], [], ""⟩ :=
      getD_append_self dom.nodes _ emptyNode
    have happ : applyAttributes (⟨dom.nodes ++ [⟨1, "DIV", [], [], [], ""⟩]⟩ : Dom)
        dom.nodes.length (.vObj [("$", .vObj fields)])
        = (⟨dom.nodes ++ [⟨1, "DIV", [], fields, [], ""⟩]⟩ : Dom) := by
      rw [show applyAttributes (⟨dom.nodes ++ [⟨1, "DIV", [], [], [], ""⟩]⟩ : Dom)
            dom.nodes.length (.vObj [("$", .vObj fields)])
          = applyAttr (⟨dom.nodes ++ [⟨1, "DIV", [], [], [], ""⟩]⟩ : Dom)
              dom.nodes.length "$" (.vObj fields) from rfl]
      rw [applyAttr, if_pos rfl, hget]
      rw [show (⟨1, "DIV", [], [], [], ""⟩ : NodeData).props = [] from rfl,
        deepCopy_fresh fields hwf]
      rw [show objFields (.vObj fields) = fields from rfl, setNode,
        set_append_self dom.nodes _ _]
    rw [List.headD_cons, happ]
    rfl
  exact ⟨main, by
    have := main noFuns [("style", .vObj [("color", .vStr "grey")])] emptyDom (by decide)
    exact this⟩

/-- Witness for C3 at the spec's example `{$: {style: {color: "grey"}}}`
over the empty document. -/
theorem h_dollar_deep_property_copy_witness :
    h noFuns
      [.vStr "div", .vObj [("$", .vObj [("style", .vObj [("color", .vStr "grey")])])]]
      emptyDom
      = .ok (.vNode 0,
          ⟨[⟨1, "DIV", [], [("style", .vObj [("color", .vStr "grey")])], [], ""⟩]⟩) :=
  h_dollar_deep_property_copy.1 noFuns [("style", .vObj [("color", .vStr "grey")])]
    emptyDom (by decide)

mutual

/-- Child well-formedness only constrains handles to be in range, so it
survives store growth. -/
theorem wfChild_mono :
    ∀ (item : Value) (dA dB : Dom),
      dA.nodes.length ≤ dB.nodes.length →
      wfChild dA item = true → wfChild dB item = true
  | .vNull, _, _, _, _ => rfl
  | .vUndefined, _, _, _, _ => rfl
  | .vArr items, dA, dB, hlen, hwf => wfChildList_mono items dA dB hlen hwf
  | .vNode id, dA, dB, hlen, hwf => by
    rw [show wfChild dA (.vNode id) = decide (id < dA.nodes.length) from rfl] at hwf
    rw [show wfChild dB (.vNode id) = decide (id < dB.nodes.length) from rfl]
    simp only [decide_eq_true_eq] at hwf ⊢
    omega
  | .vBool b, dA, dB, _, hwf => hwf
  | .vNum n, dA, dB, _, hwf => hwf
  | .vNaN, dA, dB, _, hwf => hwf
  | .vStr s, dA, dB, _, hwf => hwf
  | .vObj fields, dA, dB, _, hwf => hwf
  | .vMap, dA, dB, _, hwf => hwf
  | .vWeakMap, dA, dB, _, hwf => hwf
  | .vFun i, dA, dB, _, hwf => hwf

/-- List version of `wfChild_mono`. -/
theorem wfChildList_mono :
    ∀ (items : List Value) (dA dB : Dom),
      dA.nodes.length ≤ dB.nodes.length →
      wfChildList dA items = true → wfChildList dB items = true
  | [], _, _, _, _ => rfl
  | x :: xs, dA, dB, hlen, hwf => by
    rw [wfChildList, Bool.and_eq_true] at hwf ⊢
    exact ⟨wfChild_mono x dA dB hlen hwf.1, wfChildList_mono xs dA dB hlen hwf.2⟩

end

/-- One non-skipped, non-sequence item: the attachment appends exactly one
child, creates no element, and that child is a valid handle provided the
item is either a valid handle itself or gets textified. -/
theorem attachLeaf_master (dom : Dom) (e : Nat) (it : Value)
    (he : e < dom.nodes.length) :
    countElems (attachLeaf dom e it) = countElems dom
    ∧ dom.nodes.length ≤ (attachLeaf dom e it).nodes.length
    ∧ ∃ c, (getNode (attachLeaf dom e it) e).children = (getNode dom e).children ++ [c]
        ∧ ((truthy (getNodeTypeVal dom it) = true → isNodeRef dom it) →
            isNodeRef (attachLeaf dom e it) c) := by
  by_cases hT : truthy (getNodeTypeVal dom it) = true
  · rw [attachLeaf, if_pos hT]
    refine ⟨countElems_setNode dom e _ rfl, by rw [appendChildOp, setNode_length], it, ?_, ?_⟩
    · rw [appendChildOp, getNode_setNode_self _ _ _ he]
    · intro hok
      rcases hok hT with ⟨id, rfl, hid⟩
      exact ⟨id, rfl, by rw [appendChildOp, setNode_length]; exact hid⟩
  · have heq2 : attachLeaf dom e it
        = appendChildOp (⟨dom.nodes ++ [⟨3, "", [], [], [], toStr it⟩]⟩ : Dom) e
            (.vNode dom.nodes.length) := by
      rw [attachLeaf, if_neg hT]
      rfl
    rw [heq2]
    have he1 : e < (⟨dom.nodes ++ [⟨3, "", [], [], [], toStr it⟩]⟩ : Dom).nodes.length := by
      simp only [List.length_append, List.length_cons, List.length_nil]
      omega
    have hgn : getNode (⟨dom.nodes ++ [⟨3, "", [], [], [], toStr it⟩]⟩ : Dom) e
        = getNode dom e :=
      getD_append_lt dom.nodes _ e emptyNode he
    refine ⟨?_, ?_, .vNode dom.nodes.length, ?_, ?_⟩
    · rw [appendChildOp]
      refine Eq.trans (countElems_setNode _ _ _ rfl) ?_
      rw [countElems, countElems]
      simp [List.countP_append]
    · rw [appendChildOp, setNode_length]
      simp only [List.length_append, List.length_cons, List.length_nil]
      omega
    · rw [appendChildOp, getNode_setNode_self _ _ _ he1, hgn]
    · intro _
      refine ⟨dom.nodes.length, rfl, ?_⟩
      rw [appendChildOp, setNode_length]
      simp only [List.length_append, List.length_cons, List.length_nil]
      omega

/-- The append step shared by every leaf case of `addChildren_master`. -/
theorem addChildren_leaf_master (dom : Dom) (e : Nat) (it : Value)
    (he : e < dom.nodes.length)
    (heq : addChildren dom e it = attachLeaf dom e it)
    (hwfok : wfChild dom it = true →
      truthy (getNodeTypeVal dom it) = true → isNodeRef dom it) :
    countElems (addChildren dom e it) = countElems dom
    ∧ dom.nodes.length ≤ (addChildren dom e it).nodes.length
    ∧ ∃ delta,
        (getNode (addChildren dom e it) e).children
          = (getNode dom e).children ++ delta
        ∧ (wfChild dom it = true →
            ∀ c ∈ delta, isNodeRef (addChildren dom e it) c) := by
  rw [heq]
  have ham := attachLeaf_master dom e it he
  refine ⟨ham.1, ham.2.1, ?_⟩
  rcases ham.2.2 with ⟨c, hch, hcref⟩
  refine ⟨[c], hch, fun hwf c' hc' => ?_⟩
  rw [List.mem_singleton] at hc'
  subst hc'
  exact hcref (hwfok hwf)

mutual

/-- Master lemma for the `src/h.js` child normalizer: it creates no
element, only grows the store, and appends to the target's children a
block of values that — for well-formed input — are all valid node
handles. -/
theorem addChildren_master :
    ∀ (item : Value) (dom : Dom) (e : Nat), e < dom.nodes.length →
      countElems (addChildren dom e item) = countElems dom
      ∧ dom.nodes.length ≤ (addChildren dom e item).nodes.length
      ∧ ∃ delta,
          (getNode (addChildren dom e item) e).children
            = (getNode dom e).children ++ delta
          ∧ (wfChild dom item = true →
              ∀ c ∈ delta, isNodeRef (addChildren dom e item) c)
  | .vNull, dom, e, _ =>
    ⟨rfl, le_refl _, [], (List.append_nil _).symm, fun _ c hc => absurd hc (by simp)⟩
  | .vUndefined, dom, e, _ =>
    ⟨rfl, le_refl _, [], (List.append_nil _).symm, fun _ c hc => absurd hc (by simp)⟩
  | .vArr items, dom, e, he => addChildrenList_master items dom e he
  | .vBool b, dom, e, he =>
    addChildren_leaf_master dom e (.vBool b) he rfl (by
      intro _ ht; simp [getNodeTypeVal, truthy] at ht)
  | .vNum n, dom, e, he =>
    addChildren_leaf_master dom e (.vNum n) he rfl (by
      intro _ ht; simp [getNodeTypeVal, truthy] at ht)
  | .vNaN, dom, e, he =>
    addChildren_leaf_master dom e .vNaN he rfl (by
      intro _ ht; simp [getNodeTypeVal, truthy] at ht)
  | .vStr s, dom, e, he =>
    addChildren_leaf_master dom e (.vStr s) he rfl (by
      intro _ ht; simp [getNodeTypeVal, truthy] at ht)
  | .vObj fields, dom, e, he =>
    addChildren_leaf_master dom e (.vObj fields) he rfl (by
      intro hwf ht
      rw [show wfChild dom (.vObj fields)
          = !(truthy (getNodeTypeVal dom (.vObj fields))) from rfl, ht] at hwf
      simp at hwf)
  | .vMap, dom, e, he =>
    addChildren_leaf_master dom e .vMap he rfl (by
      intro _ ht; simp [getNodeTypeVal, truthy] at ht)
  | .vWeakMap, dom, e, he =>
    addChildren_leaf_master dom e .vWeakMap he rfl (by
      intro _ ht; simp [getNodeTypeVal, truthy] at ht)
  | .vFun i, dom, e, he =>
    addChildren_leaf_master dom e (.vFun i) he rfl (by
      intro _ ht; simp [getNodeTypeVal, truthy] at ht)
  | .vNode id, dom, e, he =>
    addChildren_leaf_master dom e (.vNode id) he rfl (by
      intro hwf _
      rw [show wfChild dom (.vNode id) = decide (id < dom.nodes.length) from rfl] at hwf
      exact ⟨id, rfl, by simpa using hwf⟩)

/-- Master lemma for the fold of `addChildren` over a child sequence. -/
theorem addChildrenList_master :
    ∀ (items : List Value) (dom : Dom) (e : Nat), e < dom.nodes.length →
      countElems (addChildrenList dom e items) = countElems dom
      ∧ dom.nodes.length ≤ (addChildrenList dom e items).nodes.length
      ∧ ∃ delta,
          (getNode (addChildrenList dom e items) e).children
            = (getNode dom e).children ++ delta
          ∧ (wfChildList dom items = true →
              ∀ c ∈ delta, isNodeRef (addChildrenList dom e items) c)
  | [], dom, e, _ =>
    ⟨rfl, le_refl _, [], (List.append_nil _).symm, fun _ c hc => absurd hc (by simp)⟩
  | x :: xs, dom, e, he => by
    have h1 := addChildren_master x dom e he
    have he1 : e < (addChildren dom e x).nodes.length := lt_of_lt_of_le he h1.2.1
    have h2 := addChildrenList_master xs (addChildren dom e x) e he1
    have heq : addChildrenList dom e (x :: xs)
        = addChildrenList (addChildren dom e x) e xs := rfl
    refine ⟨?_, ?_, ?_⟩
    · rw [heq, h2.1, h1.1]
    · rw [heq]; exact le_trans h1.2.1 h2.2.1
    · rcases h1.2.2 with ⟨d1, hch1, href1⟩
      rcases h2.2.2 with ⟨d2, hch2, href2⟩
      refine ⟨d1 ++ d2, ?_, ?_⟩
      · rw [heq, hch2, hch1, List.append_assoc]
      · intro hwf c hc
        rw [wfChildList, Bool.and_eq_true] at hwf
        rcases List.mem_append.mp hc with hc1 | hc2
        · rcases href1 hwf.1 c hc1 with ⟨id, rfl, hid⟩
          exact ⟨id, rfl, by rw [heq]; exact lt_of_lt_of_le hid h2.2.1⟩
        · have := href2 (wfChildList_mono xs dom (addChildren dom e x) h1.2.1 hwf.2) c hc2
          rw [heq]
          exact this

end

/-- One attribute entry touches no store slot count. -/
theorem applyAttr_length (dom : Dom) (e : Nat) (k : String) (v : Value) :
    (applyAttr dom e k v).nodes.length = dom.nodes.length := by
  rw [applyAttr]
  split
  · exact setNode_length _ _ _
  · split
    · rw [removeAttributeOp]; exact setNode_length _ _ _
    · rw [setAttributeOp]; exact setNode_length _ _ _

/-- One attribute entry creates no element. -/
theorem applyAttr_countElems (dom : Dom) (e : Nat) (k : String) (v : Value) :
    countElems (applyAttr dom e k v) = countElems dom := by
  rw [applyAttr]
  split
  · exact countElems_setNode _ _ _ rfl
  · split
    · rw [removeAttributeOp]; exact countElems_setNode _ _ _ rfl
    · rw [setAttributeOp]; exact countElems_setNode _ _ _ rfl

/-- The attribute loop preserves the store's size. -/
theorem applyAttributes_length (dom : Dom) (e : Nat) (attrs : Value) :
    (applyAttributes dom e attrs).nodes.length = dom.nodes.length := by
  rw [applyAttributes]
  generalize ownKeys attrs = ks
  induction ks generalizing dom with
  | nil => rfl
  | cons a as ih =>
    rw [List.foldl_cons, ih (applyAttr dom e a (getProp attrs a)), applyAttr_length]

/-- The attribute loop creates no element. -/
theorem applyAttributes_countElems (dom : Dom) (e : Nat) (attrs : Value) :
    countElems (applyAttributes dom e attrs) = countElems dom := by
  rw [applyAttributes]
  generalize ownKeys attrs = ks
  induction ks generalizing dom with
  | nil => rfl
  | cons a as ih =>
    rw [List.foldl_cons, ih (applyAttr dom e a (getProp attrs a)), applyAttr_countElems]

/-- C6. After normalization every value the child normalizer actually
attaches is a node handle of the store (an existing node appended as-is
or a freshly created text node), never a raw scalar; and `null` or
`undefined` items leave the element — indeed the whole store —
unchanged. -/
theorem addChildren_attaches_only_nodes :
    (∀ (item : Value) (dom : Dom) (e : Nat),
      e < dom.nodes.length → wfChild dom item = true →
      ∃ delta,
        (getNode (addChildren dom e item) e).children
          = (getNode dom e).children ++ delta
        ∧ ∀ c ∈ delta, isNodeRef (addChildren dom e item) c)
    ∧ (∀ (dom : Dom) (e : Nat),
        addChildren dom e .vNull = dom ∧ addChildren dom e .vUndefined = dom) := by
  refine ⟨fun item dom e he hwf => ?_, fun dom e => ⟨rfl, rfl⟩⟩
  rcases (addChildren_master item dom e he).2.2 with ⟨delta, hch, href⟩
  exact ⟨delta, hch, href hwf⟩

/-- Witness for C6 over a one-element store with a nested, gappy child
sequence. -/
theorem addChildren_attaches_only_nodes_witness :
    ∃ delta,
      (getNode (addChildren sectionDom 0 (.vArr [.vStr "x", .vNull, .vNode 0])) 0).children
        = (getNode sectionDom 0).children ++ delta
      ∧ ∀ c ∈ delta,
          isNodeRef (addChildren sectionDom 0 (.vArr [.vStr "x", .vNull, .vNode 0])) c :=
  addChildren_attaches_only_nodes.1 (.vArr [.vStr "x", .vNull, .vNode 0]) sectionDom 0
    (by decide) (by decide)

/-- C8. A tag carrying the element class of the node-category marker is
mutated in place: `h` returns that very handle, allocates no new
element, and applies the supplied attributes and children to it — as in
`h(existingElement, {class: "w"}, "text")`. -/
theorem h_element_tag_mutates :
    (∀ (tbl : FunTable) (id : Nat) (rest : List Value) (dom : Dom),
      id < dom.nodes.length → (getNode dom id).nodeType = 1 →
      ∃ dom2, h tbl (.vNode id :: rest) dom = .ok (.vNode id, dom2)
        ∧ countElems dom2 = countElems dom
        ∧ dom.nodes.length ≤ dom2.nodes.length)
    ∧ h noFuns [.vNode 0, .vObj [("class", .vStr "w")], .vStr "text"] sectionDom
        = .ok (.vNode 0,
            ⟨[⟨1, "SECTION", [("class", .vStr "w")], [], [.vNode 1], ""⟩,
              ⟨3, "", [], [], [], "text"⟩]⟩) := by
  refine ⟨fun tbl id rest dom hid hone => ?_, by rfl⟩
  have hnt : getNodeTypeVal dom (.vNode id) = .vNum 1 := by
    simp [getNodeTypeVal, hid, hone]
  have hmk : isElemMarked dom (.vNode id) = true := by rw [isElemMarked, hnt]; decide
  have hsel : selectElement dom (.vNode id) = .ok (id, dom) := by
    rw [selectElement, if_pos hmk]
  rw [h_eq_hRest tbl (.vNode id :: rest) dom (by rfl)]
  simp only [List.headD_cons, List.tail_cons]
  rw [show effectiveTag (.vNode id) = .vNode id from rfl, hsel]
  simp only [hRest]
  by_cases hb : isAttributes (rest.headD .vUndefined) = true
  · rw [if_pos hb]
    have hid1 : id < (applyAttributes dom id (rest.headD .vUndefined)).nodes.length := by
      rw [applyAttributes_length]; exact hid
    have hm := addChildrenList_master (rest.set 0 .vNull)
      (applyAttributes dom id (rest.headD .vUndefined)) id hid1
    refine ⟨_, rfl, ?_, ?_⟩
    · rw [hm.1, applyAttributes_countElems]
    · calc dom.nodes.length
          = (applyAttributes dom id (rest.headD .vUndefined)).nodes.length :=
            (applyAttributes_length dom id _).symm
        _ ≤ _ := hm.2.1
  · rw [if_neg hb]
    have hm := addChildrenList_master rest dom id hid
    exact ⟨_, rfl, hm.1, hm.2.1⟩

/-- Witness for C8: mutating the existing `section` element applies the
attribute and appends the text child to the same handle. -/
theorem h_element_tag_mutates_witness :
    ∃ dom2, h noFuns [.vNode 0] sectionDom = .ok (.vNode 0, dom2)
      ∧ countElems dom2 = countElems sectionDom
      ∧ sectionDom.nodes.length ≤ dom2.nodes.length :=
  h_element_tag_mutates.1 noFuns 0 [] sectionDom (by decide) (by decide)

/-- C2. Divergence of the `src/index.js` child normalizer from the
ordering guarantee: on `h("ul", [li1, [li2, li3]])` over three fresh
`li` elements it attaches the children reversed and, the array branch
falling through, also attaches the stringified arrays as text nodes
(handles 4 and 5), while the `src/h.js` factory on the same input yields
exactly `[li1, li2, li3]` in order. -/
theorem hIdx_child_order_divergence :
    (∃ d, hIdx noFuns [.vStr "ul", .vArr [.vNode 0, .vArr [.vNode 1, .vNode 2]]] liDom
        = .ok (.vNode 3, d)
      ∧ (getNode d 3).children = [.vNode 2, .vNode 1, .vNode 4, .vNode 0, .vNode 5]
      ∧ (getNode d 4).nodeType = 3
      ∧ (getNode d 4).text = "[object Object],[object Object]"
      ∧ (getNode d 5).nodeType = 3)
    ∧ (∃ d, h noFuns [.vStr "ul", .vArr [.vNode 0, .vArr [.vNode 1, .vNode 2]]] liDom
        = .ok (.vNode 3, d)
      ∧ (getNode d 3).children = [.vNode 0, .vNode 1, .vNode 2])
    ∧ ([Value.vNode 2, .vNode 1, .vNode 4, .vNode 0, .vNode 5]
        ≠ [Value.vNode 0, .vNode 1, .vNode 2]) := by
  refine ⟨⟨_, rfl, rfl, rfl, rfl, rfl⟩, ⟨_, rfl, rfl⟩, fun hc => ?_⟩
  exact absurd (congrArg List.length hc) (by decide)

end H
